import Mathlib

/-!
Verification development for the extension-chain parsing and path-conflict
resolution core of the ouch repository (src/extension.rs, src/utils/fs.rs).

Filenames handled by extension.rs are byte strings (Rust byte slices via
bstr), modelled here as `List Nat` with each element a byte value.  Path
strings handled by fs.rs are modelled as `List Char`; every separator
inspected there ('.', '_') is ASCII, so character positions and byte
positions agree at each inspected boundary.

The source's `while` loops are translated as structural recursion over an
explicit fuel argument; each loop body strictly shrinks the data it walks,
so fuel equal to the input length is always sufficient (proved below where
a claim needs it).  Rust `u32` arithmetic is modelled on `Nat` with an
explicit reduction modulo 2 ^ 32 at the one addition that can overflow.
-/

namespace Ouch

/-- Byte list of an ASCII string literal (each char's code point, all < 128). -/
def bytesOf (s : String) : List Nat := s.data.map Char.toNat

/-- Character list of a string literal. -/
def charsOf (s : String) : List Char := s.data

deriving instance DecidableEq for Except

/-- CompressionFormat from src/extension.rs: the closed enumeration of
accepted formats. -/
inductive CompressionFormat where
  | Gzip
  | Bzip
  | Bzip3
  | Lz4
  | Xz
  | Lzma
  | Lzip
  | Snappy
  | Tar
  | Zstd
  | Zip
  | Rar
  | SevenZip
  | Brotli
deriving DecidableEq

/-- CompressionFormat::archive_format: exhaustive match with no wildcard arm,
as in the source. -/
def CompressionFormat.archive_format : CompressionFormat → Bool
  | .Tar | .Zip | .Rar | .SevenZip => true
  | .Bzip | .Bzip3 | .Lz4 | .Lzma | .Xz | .Lzip | .Snappy | .Zstd | .Brotli | .Gzip => false

/-- Extension from src/extension.rs: an ordered list of formats plus the
display text (the token the user wrote, kept as its bytes). -/
structure Extension where
  compression_formats : List CompressionFormat
  display_text : List Nat
deriving DecidableEq

/-- Extension::is_archive: classification of the first format.  The source
indexes position 0 under the constructor's non-emptiness invariant; an empty
list is classified false here (unreachable for catalog-built values). -/
def Extension.is_archive (e : Extension) : Bool :=
  match e.compression_formats with
  | [] => false
  | f :: _ => f.archive_format

/-- to_extension from src/extension.rs: the catalog lookup.  The source is a
single match on the raw byte token, written here as an equality chain in the
same order; the display text is the token itself (to_str_lossy is the
identity on these ASCII tokens). -/
def to_extension (ext : List Nat) : Option Extension :=
  if ext = bytesOf ("tar") then some ⟨[.Tar], ext⟩
  else if ext = bytesOf ("tgz") then some ⟨[.Tar, .Gzip], ext⟩
  else if ext = bytesOf ("tbz") ∨ ext = bytesOf ("tbz2") then some ⟨[.Tar, .Bzip], ext⟩
  else if ext = bytesOf ("tbz3") then some ⟨[.Tar, .Bzip3], ext⟩
  else if ext = bytesOf ("tlz4") then some ⟨[.Tar, .Lz4], ext⟩
  else if ext = bytesOf ("txz") then some ⟨[.Tar, .Xz], ext⟩
  else if ext = bytesOf ("tlzma") then some ⟨[.Tar, .Lzma], ext⟩
  else if ext = bytesOf ("tlz") then some ⟨[.Tar, .Lzip], ext⟩
  else if ext = bytesOf ("tsz") then some ⟨[.Tar, .Snappy], ext⟩
  else if ext = bytesOf ("tzst") then some ⟨[.Tar, .Zstd], ext⟩
  else if ext = bytesOf ("zip") then some ⟨[.Zip], ext⟩
  else if ext = bytesOf ("bz") ∨ ext = bytesOf ("bz2") then some ⟨[.Bzip], ext⟩
  else if ext = bytesOf ("bz3") then some ⟨[.Bzip3], ext⟩
  else if ext = bytesOf ("gz") then some ⟨[.Gzip], ext⟩
  else if ext = bytesOf ("lz4") then some ⟨[.Lz4], ext⟩
  else if ext = bytesOf ("xz") then some ⟨[.Xz], ext⟩
  else if ext = bytesOf ("lzma") then some ⟨[.Lzma], ext⟩
  else if ext = bytesOf ("lz") then some ⟨[.Lzip], ext⟩
  else if ext = bytesOf ("sz") then some ⟨[.Snappy], ext⟩
  else if ext = bytesOf ("zst") then some ⟨[.Zstd], ext⟩
  else if ext = bytesOf ("rar") then some ⟨[.Rar], ext⟩
  else if ext = bytesOf ("7z") then some ⟨[.SevenZip], ext⟩
  else if ext = bytesOf ("br") then some ⟨[.Brotli], ext⟩
  else none

/-- bstr rsplit_once_str with a dot pattern: split a byte string at the last
occurrence of the dot byte (46). -/
def rsplitOnceDot : List Nat → Option (List Nat × List Nat)
  | [] => none
  | b :: rest =>
    match rsplitOnceDot rest with
    | some (l, r) => some (b :: l, r)
    | none => if b = 46 then some ([], rest) else none

/-- split_extension_at_end from src/extension.rs: split the name at the last
dot; refuse when the remainder is empty, "." or ".." or the token is not in
the catalog. -/
def split_extension_at_end (name : List Nat) : Option (List Nat × Extension) :=
  match rsplitOnceDot name with
  | none => none
  | some (new_name, ext) =>
    if new_name = [] ∨ new_name = [46] ∨ new_name = [46, 46] then none
    else
      match to_extension ext with
      | none => none
      | some e => some (new_name, e)

/-- The peeling loop of separate_known_extensions_from_name, structurally
recursive over fuel.  The chain is built by prepending each peeled extension
(the source's insert at index 0), realised here by appending the outermost
token after the recursive call. -/
def separateExtensionsGo : Nat → List Nat → Except Unit (List Nat × List Extension)
  | 0, name => .ok (name, [])
  | fuel + 1, name =>
    match split_extension_at_end name with
    | none => .ok (name, [])
    | some (new_name, ext) =>
      if ext.is_archive then
        match split_extension_at_end new_name with
        | some _ => .error ()
        | none => .ok (new_name, [ext])
      else
        match separateExtensionsGo fuel new_name with
        | .ok (stem, exts) => .ok (stem, exts ++ [ext])
        | .error e => .error e

/-- separate_known_extensions_from_name from src/extension.rs, on the final
path component's bytes (the source first extracts the path's file name; a
path with no file name returns unchanged with an empty list).  Peels
recognized trailing extensions; once an archive extension is consumed, one
further split is attempted and, if it yields a recognized extension, the
parse fails.  Each loop iteration strictly shortens the name, so fuel equal
to the name length is never exhausted.  The source's non-fatal stem warning
only logs and does not change the returned value; the error payload (a
FinalError message) is not inspected by any caller modelled here and is
collapsed to Unit. -/
def separate_known_extensions_from_name (name : List Nat) :
    Except Unit (List Nat × List Extension) :=
  separateExtensionsGo name.length name

/-- Follows the spec's placement rule, for comparison with the code: peel
recognized extensions from the end; when an extension whose is_archive holds
is consumed, return the remaining name; if the tokens run out before any
archive extension is consumed, return nothing. -/
def specPeelToArchiveGo : Nat → List Nat → Option (List Nat)
  | 0, _ => none
  | fuel + 1, name =>
    match split_extension_at_end name with
    | none => none
    | some (new_name, ext) =>
      if ext.is_archive then some new_name else specPeelToArchiveGo fuel new_name

/-- Spec-side companion of the placement rule with the always-sufficient fuel. -/
def specPeelToArchive (name : List Nat) : Option (List Nat) :=
  specPeelToArchiveGo name.length name

/-- The error payloads of Error::InvalidFormatFlag in parse_format_flag,
keyed by their reason strings: "Invalid UTF-8.", "Unsupported extension ...",
"Parsing got an empty list of extensions."; each carries the whole original
input, and the unsupported case also carries the offending segment. -/
inductive FormatFlagError where
  | invalidUtf8 (text : List Nat)
  | unsupportedExtension (text : List Nat) (segment : List Nat)
  | emptyList (text : List Nat)
deriving DecidableEq

/-- A UTF-8 continuation byte. -/
def isUtf8Cont (b : Nat) : Bool := decide (0x80 ≤ b ∧ b ≤ 0xBF)

/-- Modelled from the spec's reliance on std::str::from_utf8 (not under
src/): validity of a byte sequence under the UTF-8 encoding rules (RFC 3629
well-formed sequences, as enforced by the Rust standard library). -/
def isValidUtf8 : List Nat → Bool
  | [] => true
  | b :: rest =>
    if b ≤ 0x7F then isValidUtf8 rest
    else if 0xC2 ≤ b ∧ b ≤ 0xDF then
      match rest with
      | c1 :: r => isUtf8Cont c1 && isValidUtf8 r
      | [] => false
    else if b = 0xE0 then
      match rest with
      | c1 :: c2 :: r => decide (0xA0 ≤ c1 ∧ c1 ≤ 0xBF) && isUtf8Cont c2 && isValidUtf8 r
      | _ => false
    else if b = 0xED then
      match rest with
      | c1 :: c2 :: r => decide (0x80 ≤ c1 ∧ c1 ≤ 0x9F) && isUtf8Cont c2 && isValidUtf8 r
      | _ => false
    else if (0xE1 ≤ b ∧ b ≤ 0xEC) ∨ (0xEE ≤ b ∧ b ≤ 0xEF) then
      match rest with
      | c1 :: c2 :: r => isUtf8Cont c1 && isUtf8Cont c2 && isValidUtf8 r
      | _ => false
    else if b = 0xF0 then
      match rest with
      | c1 :: c2 :: c3 :: r =>
        decide (0x90 ≤ c1 ∧ c1 ≤ 0xBF) && isUtf8Cont c2 && isUtf8Cont c3 && isValidUtf8 r
      | _ => false
    else if 0xF1 ≤ b ∧ b ≤ 0xF3 then
      match rest with
      | c1 :: c2 :: c3 :: r => isUtf8Cont c1 && isUtf8Cont c2 && isUtf8Cont c3 && isValidUtf8 r
      | _ => false
    else if b = 0xF4 then
      match rest with
      | c1 :: c2 :: c3 :: r =>
        decide (0x80 ≤ c1 ∧ c1 ≤ 0x8F) && isUtf8Cont c2 && isUtf8Cont c3 && isValidUtf8 r
      | _ => false
    else false

/-- str::split('.') on the byte level: the dot is ASCII, so for valid UTF-8
input the byte-level segmentation at byte 46 coincides with the character
split the source performs.  Empty segments are kept, as in Rust. -/
def splitOnDot : List Nat → List (List Nat)
  | [] => [[]]
  | b :: rest =>
    if b = 46 then [] :: splitOnDot rest
    else
      match splitOnDot rest with
      | s :: ss => (b :: s) :: ss
      | [] => [[b]]

/-- The map-and-collect step of parse_format_flag: each non-empty segment is
looked up; the first failing lookup aborts with the offending segment. -/
def formatFlagMap (input : List Nat) : List (List Nat) → Except FormatFlagError (List Extension)
  | [] => .ok []
  | s :: rest =>
    match to_extension s with
    | none => .error (.unsupportedExtension input s)
    | some e =>
      match formatFlagMap input rest with
      | .ok es => .ok (e :: es)
      | .error err => .error err

/-- The non-empty dot-separated segments of the input. -/
def dotSegments (input : List Nat) : List (List Nat) :=
  (splitOnDot input).filter (fun s => !s.isEmpty)

/-- parse_format_flag from src/extension.rs: reject invalid UTF-8, split on
dots, drop empty segments, map each through the catalog (first failure
wins), and reject an empty final list. -/
def parse_format_flag (input : List Nat) : Except FormatFlagError (List Extension) :=
  if isValidUtf8 input then
    match formatFlagMap input (dotSegments input) with
    | .error e => .error e
    | .ok extensions => if extensions.isEmpty then .error (.emptyList input) else .ok extensions
  else .error (.invalidUtf8 input)

/-- SUPPORTED_EXTENSIONS from src/extension.rs, as written there: note that
the source list does not contain "bz3" (while the catalog lookup and the
pretty list do); "rar" is present because the unrar feature is a default
feature of the crate. -/
def SUPPORTED_EXTENSIONS : List (List Char) :=
  [charsOf ("tar"), charsOf ("zip"), charsOf ("bz"), charsOf ("bz2"), charsOf ("gz"),
   charsOf ("lz4"), charsOf ("xz"), charsOf ("lzma"), charsOf ("lz"), charsOf ("sz"),
   charsOf ("zst"), charsOf ("rar"), charsOf ("7z"), charsOf ("br")]

/-- SUPPORTED_ALIASES from src/extension.rs. -/
def SUPPORTED_ALIASES : List (List Char) :=
  [charsOf ("tgz"), charsOf ("tbz"), charsOf ("tlz4"), charsOf ("txz"),
   charsOf ("tlzma"), charsOf ("tsz"), charsOf ("tzst"), charsOf ("tlz")]

/-- str::find('.') realised as a first-occurrence split: the part before the
first dot and the part after it. -/
def splitOnceChar (sep : Char) : List Char → Option (List Char × List Char)
  | [] => none
  | c :: rest =>
    if c = sep then some ([], rest)
    else
      match splitOnceChar sep rest with
      | some (l, r) => some (c :: l, r)
      | none => none

/-- The walk of build_archive_file_suggestion, structurally recursive over
fuel: each iteration consumes the text up to and including the next dot, so
fuel equal to the path length is never exhausted. -/
def suggestionGo (path suggested : List Char) : Nat → List Char → Nat → Option (List Char)
  | 0, _, _ => none
  | fuel + 1, rest, position_to_insert =>
    match splitOnceChar '.' rest with
    | none => none
    | some (before, after) =>
      let position' := position_to_insert + before.length + 1
      let maybe_ext := after.takeWhile (fun c => c ≠ '.')
      if SUPPORTED_EXTENSIONS.contains maybe_ext || SUPPORTED_ALIASES.contains maybe_ext then
        some (path.take (position' - 1) ++ suggested ++ path.drop (position' - 1))
      else suggestionGo path suggested fuel after position'

/-- build_archive_file_suggestion from src/extension.rs: walk the
dot-delimited boundaries left to right; at the first segment contained in
SUPPORTED_EXTENSIONS or SUPPORTED_ALIASES, insert the suggested extension
immediately before that boundary's dot; nothing if no segment matches.  The
source tracks byte positions; the inspected separator is the ASCII dot, so
the character positions used here cut the string at the same boundaries. -/
def build_archive_file_suggestion (path suggested_extension : List Char) : Option (List Char) :=
  suggestionGo path suggested_extension path.length path 0

/-- A path for the fs.rs helpers, already split as parent directory and the
final component, matching how rename_or_increment_filename consumes it (the
parent is only carried through Path::join).  Paths whose final component is
a normal file name are representable; "." and ".." components, which Rust
reports as having no file name, are outside the model. -/
structure FsPath where
  parent : List Char
  fileName : List Char
deriving DecidableEq

/-- Split a character string at the LAST occurrence of a separator. -/
def rsplitOnceChar (sep : Char) : List Char → Option (List Char × List Char)
  | [] => none
  | c :: rest =>
    match rsplitOnceChar sep rest with
    | some (l, r) => some (c :: l, r)
    | none => if c = sep then some ([], rest) else none

/-- Path::file_stem on a file name: the part before the final dot; the whole
name when there is no dot or when the part before the final dot is empty
(hidden files such as ".gitignore"). -/
def pathFileStem (name : List Char) : List Char :=
  match rsplitOnceChar '.' name with
  | none => name
  | some (before, _) => if before = [] then name else before

/-- Path::extension on a file name: the part after the final dot, none when
there is no dot or the part before it is empty. -/
def pathExtension (name : List Char) : Option (List Char) :=
  match rsplitOnceChar '.' name with
  | none => none
  | some (before, after) => if before = [] then none else some after

/-- PathBuf::set_extension with a non-empty extension: strip the current
extension (if any) and append a dot and the new extension. -/
def pathSetExtension (name e : List Char) : List Char :=
  pathFileStem name ++ '.' :: e

/-- str::parse::<u32> on a digit string: fails on an empty string, a
non-digit character, or a value outside u32 range.  (The caller's guard has
already ensured the characters are numeric, so the sign prefixes Rust would
additionally accept cannot occur.) -/
def parseU32 (s : List Char) : Option Nat :=
  if s = [] then none
  else if s.all Char.isDigit then
    let v := s.foldl (fun a c => a * 10 + (c.toNat - 48)) 0
    if v < 4294967296 then some v else none
  else none

/-- rename_or_increment_filename from src/utils/fs.rs: split into parent,
stem and extension; a stem ending in an underscore plus a numeric suffix has
the suffix replaced by its successor (u32 arithmetic, hence the reduction
modulo 2 ^ 32; an unparsable suffix counts as 0), otherwise "_1" is
appended (the source's new_filename computation).  Rust's char::is_numeric
also accepts non-ASCII Unicode numerals; the model uses the ASCII digit
test, on which the two agree for ASCII path strings. -/
def newFilenameOf (filename : List Char) : List Char :=
  match rsplitOnceChar '_' filename with
  | some (base, number_str) =>
    if number_str.all Char.isDigit then
      base ++ '_' :: charsOf (Nat.repr (((parseU32 number_str).getD 0 + 1) % 4294967296))
    else filename ++ charsOf ("_1")
  | none => filename ++ charsOf ("_1")

/-- rename_or_increment_filename from src/utils/fs.rs, built from the stem,
the extension and the new_filename computation above: a non-empty extension
is reattached through set_extension on the joined path, otherwise the new
file name is used as is. -/
def rename_or_increment_filename (p : FsPath) : FsPath :=
  if (pathExtension p.fileName).getD [] ≠ [] then
    ⟨p.parent,
      pathSetExtension (newFilenameOf (pathFileStem p.fileName))
        ((pathExtension p.fileName).getD [])⟩
  else ⟨p.parent, newFilenameOf (pathFileStem p.fileName)⟩

/-- The while loop of rename_for_available_filename over an explicit fuel;
the filesystem is modelled by its existence test.  Source: while the current
candidate exists, increment again. -/
def renameLoop (fsExists : FsPath → Bool) : Nat → FsPath → Option FsPath
  | 0, _ => none
  | fuel + 1, p =>
    if fsExists p then renameLoop fsExists fuel (rename_or_increment_filename p)
    else some p

/-- rename_for_available_filename from src/utils/fs.rs: apply the increment
step once, then keep applying it while the produced path exists.  The source
loop has no bound; a fuel-exhausted run is reported as none, and sufficient
fuel is shown to exist under the finiteness hypothesis of the claim. -/
def rename_for_available_filename (fsExists : FsPath → Bool) (fuel : Nat) (p : FsPath) :
    Option FsPath :=
  renameLoop fsExists fuel (rename_or_increment_filename p)

/-- The k-fold application of the increment step. -/
def renameIter (p : FsPath) : Nat → FsPath
  | 0 => p
  | k + 1 => rename_or_increment_filename (renameIter p k)

/-- FileConflitOperation from src/utils/question.rs (name as in the source). -/
inductive FileConflitOperation where
  | Cancel
  | Overwrite
  | Rename
  | Merge
deriving DecidableEq

/-- resolve_path_conflict from src/utils/fs.rs.  The filesystem is modelled
by its existence test, and the prompt collaborator user_wants_to_overwrite
(src/utils/question.rs, a fallible external decision) by a function
argument.  The returned pair is the resolved path option together with the
path handed to remove_file_or_dir (the deletion request), or none for that
component when nothing is deleted; the outer Option reports fuel exhaustion
of the rename loop, which the unbounded source loop cannot observe. -/
def resolve_path_conflict {Q A : Type} (fsExists : FsPath → Bool)
    (user_wants_to_overwrite : FsPath → Q → A → Except Unit FileConflitOperation)
    (fuel : Nat) (path : FsPath) (question_policy : Q) (question_action : A) :
    Option (Except Unit (Option FsPath × Option FsPath)) :=
  if fsExists path then
    match user_wants_to_overwrite path question_policy question_action with
    | .error e => some (.error e)
    | .ok .Cancel => some (.ok (none, none))
    | .ok .Overwrite => some (.ok (some path, some path))
    | .ok .Rename =>
      match rename_for_available_filename fsExists fuel path with
      | some renamed_path => some (.ok (some renamed_path, none))
      | none => none
    | .ok .Merge => some (.ok (some path, none))
  else some (.ok (some path, none))

/-- The buffer try_infer_extension works on: a zero-initialized 270-byte
array filled from the start of the file; a file shorter than 270 bytes
leaves the tail zero, and the buffer keeps its full length of 270. -/
def sniffBuffer (contents : List Nat) : List Nat :=
  contents.take 270 ++ List.replicate (270 - (contents.take 270).length) 0

/-- is_zip from try_infer_extension. -/
def is_zip (buf : List Nat) : Bool :=
  decide (buf.length ≥ 3) && (buf.take 2 == [0x50, 0x4B]) &&
    ((buf.drop 2).take 2 == [0x3, 0x4] || (buf.drop 2).take 2 == [0x5, 0x6] ||
      (buf.drop 2).take 2 == [0x7, 0x8])

/-- is_tar from try_infer_extension: bytes 257 to 261 spell "ustar". -/
def is_tar (buf : List Nat) : Bool :=
  decide (buf.length > 261) && ((buf.drop 257).take 5 == [0x75, 0x73, 0x74, 0x61, 0x72])

/-- is_gz from try_infer_extension. -/
def is_gz (buf : List Nat) : Bool := [0x1F, 0x8B, 0x8].isPrefixOf buf

/-- is_bz2 from try_infer_extension. -/
def is_bz2 (buf : List Nat) : Bool := [0x42, 0x5A, 0x68].isPrefixOf buf

/-- is_bz3 from try_infer_extension: the ASCII bytes of "BZ3v1". -/
def is_bz3 (buf : List Nat) : Bool := (bytesOf ("BZ3v1")).isPrefixOf buf

/-- is_lzma from try_infer_extension. -/
def is_lzma (buf : List Nat) : Bool :=
  decide (buf.length ≥ 14) && (buf.getD 0 0 == 0x5D) &&
    (buf.getD 12 0 == 0x00 || buf.getD 12 0 == 0xFF) && (buf.getD 13 0 == 0x00)

/-- is_xz from try_infer_extension. -/
def is_xz (buf : List Nat) : Bool := [0xFD, 0x37, 0x7A, 0x58, 0x5A, 0x00].isPrefixOf buf

/-- is_lzip from try_infer_extension. -/
def is_lzip (buf : List Nat) : Bool := [0x4C, 0x5A, 0x49, 0x50].isPrefixOf buf

/-- is_lz4 from try_infer_extension. -/
def is_lz4 (buf : List Nat) : Bool := [0x04, 0x22, 0x4D, 0x18].isPrefixOf buf

/-- is_sz from try_infer_extension. -/
def is_sz (buf : List Nat) : Bool :=
  [0xFF, 0x06, 0x00, 0x00, 0x73, 0x4E, 0x61, 0x50, 0x70, 0x59].isPrefixOf buf

/-- is_zst from try_infer_extension. -/
def is_zst (buf : List Nat) : Bool := [0x28, 0xB5, 0x2F, 0xFD].isPrefixOf buf

/-- is_rar from try_infer_extension: the 4.x signature (byte 6 zero) or the
5.0 signature (bytes 6 and 7 equal to 01 00). -/
def is_rar (buf : List Nat) : Bool :=
  decide (buf.length ≥ 7) && [0x52, 0x61, 0x72, 0x21, 0x1A, 0x07].isPrefixOf buf &&
    (buf.getD 6 0 == 0x00 || (decide (buf.length ≥ 8) && ((buf.drop 6).take 2 == [0x01, 0x00])))

/-- is_sevenz from try_infer_extension. -/
def is_sevenz (buf : List Nat) : Bool := [0x37, 0x7A, 0xBC, 0xAF, 0x27, 0x1C].isPrefixOf buf

/-- try_infer_extension from src/utils/fs.rs on the bytes of a readable
file (an unreadable file returns none before any sniffing and is outside
this model).  The signature tests run in the source's fixed order against
the 270-byte zero-padded buffer. -/
def try_infer_extension (contents : List Nat) : Option Extension :=
  let buf := sniffBuffer contents
  if is_zip buf then some ⟨[.Zip], bytesOf ("zip")⟩
  else if is_tar buf then some ⟨[.Tar], bytesOf ("tar")⟩
  else if is_gz buf then some ⟨[.Gzip], bytesOf ("gz")⟩
  else if is_bz2 buf then some ⟨[.Bzip], bytesOf ("bz2")⟩
  else if is_bz3 buf then some ⟨[.Bzip3], bytesOf ("bz3")⟩
  else if is_lzma buf then some ⟨[.Lzma], bytesOf ("lzma")⟩
  else if is_xz buf then some ⟨[.Xz], bytesOf ("xz")⟩
  else if is_lzip buf then some ⟨[.Lzip], bytesOf ("lzip")⟩
  else if is_lz4 buf then some ⟨[.Lz4], bytesOf ("lz4")⟩
  else if is_sz buf then some ⟨[.Snappy], bytesOf ("sz")⟩
  else if is_zst buf then some ⟨[.Zstd], bytesOf ("zst")⟩
  else if is_rar buf then some ⟨[.Rar], bytesOf ("rar")⟩
  else if is_sevenz buf then some ⟨[.SevenZip], bytesOf ("7z")⟩
  else none

/-- Modelled from the spec: the extension strings of the spec's external
interface list (section 6), including "bz3" and the feature-gated "rar". -/
def specExtensionTokens : List (List Nat) :=
  [bytesOf ("tar"), bytesOf ("zip"), bytesOf ("bz"), bytesOf ("bz2"), bytesOf ("bz3"),
   bytesOf ("gz"), bytesOf ("lz4"), bytesOf ("xz"), bytesOf ("lzma"), bytesOf ("lz"),
   bytesOf ("sz"), bytesOf ("zst"), bytesOf ("rar"), bytesOf ("7z"), bytesOf ("br")]

/-- Modelled from the spec: the alias strings of the spec's external
interface list (section 6). -/
def specAliasTokens : List (List Nat) :=
  [bytesOf ("tgz"), bytesOf ("tbz"), bytesOf ("tlz4"), bytesOf ("txz"),
   bytesOf ("tlzma"), bytesOf ("tsz"), bytesOf ("tzst"), bytesOf ("tlz")]

/-- Modelled from the spec: the catalog's token universe as the spec states
it — the extension set, the alias set, and the bare synonyms named there
(tbz2; bz and bz2 are already members of the lists above). -/
def specCatalogTokens : List (List Nat) :=
  specExtensionTokens ++ specAliasTokens ++ [bytesOf ("tbz2")]

/-- The Extension produced for a recognized token t: the directory of
file.tar.gz-style tests compares whole Extension values, so name the two
used most. -/
def extTar : Extension := ⟨[.Tar], bytesOf ("tar")⟩

/-- The gz Extension value. -/
def extGz : Extension := ⟨[.Gzip], bytesOf ("gz")⟩

/-- The directory contents of the rename-for-availability example: file.txt
together with file_1.txt through file_5.txt, all directly in the current
directory. -/
def exampleDirFiles : List FsPath :=
  [⟨[], charsOf ("file.txt")⟩, ⟨[], charsOf ("file_1.txt")⟩, ⟨[], charsOf ("file_2.txt")⟩,
   ⟨[], charsOf ("file_3.txt")⟩, ⟨[], charsOf ("file_4.txt")⟩, ⟨[], charsOf ("file_5.txt")⟩]

/-- Existence test for the example directory. -/
def exampleDir (p : FsPath) : Bool := exampleDirFiles.contains p


theorem rsplitOnceDot_length {name l r : List Nat}
    (h : rsplitOnceDot name = some (l, r)) : l.length < name.length := by
  induction name generalizing l r with
  | nil => simp [rsplitOnceDot] at h
  | cons b rest ih =>
    simp only [rsplitOnceDot] at h
    cases hr : rsplitOnceDot rest with
    | some p =>
      obtain ⟨l', r'⟩ := p
      rw [hr] at h
      simp only [Option.some.injEq, Prod.mk.injEq] at h
      obtain ⟨h1, _⟩ := h
      subst h1
      simpa using Nat.succ_lt_succ (ih hr)
    | none =>
      rw [hr] at h
      by_cases hb : b = 46
      · simp [hb] at h
        obtain ⟨h1, _⟩ := h
        subst h1
        simp
      · simp [hb] at h

theorem split_extension_at_end_length {name l : List Nat} {e : Extension}
    (h : split_extension_at_end name = some (l, e)) : l.length < name.length := by
  simp only [split_extension_at_end] at h
  cases hr : rsplitOnceDot name with
  | none => rw [hr] at h; simp at h
  | some p =>
    obtain ⟨nn, ext⟩ := p
    rw [hr] at h
    by_cases hnn : nn = [] ∨ nn = [46] ∨ nn = [46, 46]
    · simp [hnn] at h
    · simp only [if_neg hnn] at h
      cases hte : to_extension ext with
      | none => rw [hte] at h; simp at h
      | some e' =>
        rw [hte] at h
        simp only [Option.some.injEq, Prod.mk.injEq] at h
        obtain ⟨h1, _⟩ := h
        subst h1
        exact rsplitOnceDot_length hr

theorem sepGo_error_iff (fuel : Nat) : ∀ name : List Nat, name.length ≤ fuel →
    (separateExtensionsGo fuel name = .error () ↔
      ∃ n, specPeelToArchiveGo fuel name = some n ∧ (split_extension_at_end n).isSome = true) := by
  induction fuel with
  | zero => intro name _; simp [separateExtensionsGo, specPeelToArchiveGo]
  | succ f ih =>
    intro name hlen
    simp only [separateExtensionsGo, specPeelToArchiveGo]
    cases hs : split_extension_at_end name with
    | none => simp
    | some p =>
      obtain ⟨nn, ext⟩ := p
      cases ha : ext.is_archive with
      | true =>
        cases hs2 : split_extension_at_end nn with
        | none => simp [ha, hs2]
        | some q => simp [ha, hs2]
      | false =>
        simp only [ha, Bool.false_eq_true, if_false]
        have hnn : nn.length ≤ f := by
          have := split_extension_at_end_length hs
          omega
        have hiff := ih nn hnn
        cases hrec : separateExtensionsGo f nn with
        | ok r =>
          obtain ⟨stem, exts⟩ := r
          rw [hrec] at hiff
          simp only [hrec]
          simp only [reduceCtorEq, false_iff] at hiff
          simp [hiff]
        | error e =>
          cases e
          rw [hrec] at hiff
          simp only [hrec]
          simpa using hiff

/-- C1: separate_known_extensions_from_name returns an error exactly in the
archive-misplacement case — after consuming an extension whose is_archive
holds, one further split of the remaining name is attempted, and the parse
fails precisely when that split yields another recognized extension; in
every other case the result is Ok.  In particular file.tar.zip and
file.7z.zst.zip.lz4 fail, and a name with no recognized trailing extension
yields Ok with an empty chain. -/
theorem C1_parse_chain_error_iff :
    (∀ name : List Nat,
      (separate_known_extensions_from_name name = .error () ↔
        ∃ n, specPeelToArchive name = some n ∧ (split_extension_at_end n).isSome = true)) ∧
    separate_known_extensions_from_name (bytesOf ("file.tar.zip")) = .error () ∧
    separate_known_extensions_from_name (bytesOf ("file.7z.zst.zip.lz4")) = .error () ∧
    (∀ name : List Nat, split_extension_at_end name = none →
      separate_known_extensions_from_name name = .ok (name, [])) := by
  refine ⟨fun name => sepGo_error_iff name.length name le_rfl, by decide, by decide, ?_⟩
  intro name h
  have hall : ∀ f, separateExtensionsGo f name = .ok (name, []) := by
    intro f
    cases f with
    | zero => simp [separateExtensionsGo]
    | succ k => simp [separateExtensionsGo, h]
  exact hall name.length

/-- Witness for C1: the fourth conjunct applied to the extensionless name
"file", whose split is none. -/
theorem C1_parse_chain_error_iff_witness :
    separate_known_extensions_from_name (bytesOf ("file")) = .ok (bytesOf ("file"), []) :=
  C1_parse_chain_error_iff.2.2.2 (bytesOf ("file")) (by decide)

/-- C2: the peeling stops without consuming a token when the remainder
before the last dot is empty, "." or "..", or when the token is unknown;
hence "file" and "tar" parse to an empty chain with the name unchanged,
"file.tar.gz" parses to stem "file" with chain [tar, gz], and ".tar.gz"
parses to stem ".tar" with chain [gz]. -/
theorem C2_split_stop_conditions :
    (∀ name before tok, rsplitOnceDot name = some (before, tok) →
      before = [] ∨ before = bytesOf (".") ∨ before = bytesOf ("..") ∨ to_extension tok = none →
      split_extension_at_end name = none) ∧
    separate_known_extensions_from_name (bytesOf ("file")) = .ok (bytesOf ("file"), []) ∧
    separate_known_extensions_from_name (bytesOf ("tar")) = .ok (bytesOf ("tar"), []) ∧
    separate_known_extensions_from_name (bytesOf ("file.tar.gz")) =
      .ok (bytesOf ("file"), [extTar, extGz]) ∧
    separate_known_extensions_from_name (bytesOf (".tar.gz")) =
      .ok (bytesOf (".tar"), [extGz]) := by
  refine ⟨?_, by decide, by decide, by decide, by decide⟩
  intro name before tok h hd
  have hb1 : bytesOf (".") = [46] := by decide
  have hb2 : bytesOf ("..") = [46, 46] := by decide
  by_cases hc : before = [] ∨ before = [46] ∨ before = [46, 46]
  · simp [split_extension_at_end, h, hc]
  · have hn : to_extension tok = none := by
      rcases hd with h1 | h1 | h1 | h1
      · exact absurd (Or.inl h1) hc
      · rw [hb1] at h1
        exact absurd (Or.inr (Or.inl h1)) hc
      · rw [hb2] at h1
        exact absurd (Or.inr (Or.inr h1)) hc
      · exact h1
    simp [split_extension_at_end, h, hc, hn]

/-- Witness for C2: the stop rule applied to ".tar", whose remainder before
the dot is empty. -/
theorem C2_split_stop_conditions_witness :
    split_extension_at_end (bytesOf (".tar")) = none :=
  C2_split_stop_conditions.1 (bytesOf (".tar")) [] (bytesOf ("tar")) (by decide) (Or.inl rfl)

theorem formatFlagMap_characterization (input : List Nat) (segs : List (List Nat)) :
    formatFlagMap input segs =
      match segs.find? (fun s => (to_extension s).isNone) with
      | some s => .error (.unsupportedExtension input s)
      | none => .ok (segs.filterMap to_extension) := by
  induction segs with
  | nil => simp [formatFlagMap]
  | cons s rest ih =>
    cases h : to_extension s with
    | none =>
      simp [formatFlagMap, h, List.find?]
    | some e =>
      have hp : ((to_extension s).isNone = true) = False := by simp [h]
      simp only [formatFlagMap, h, ih, List.find?_cons, Option.isNone_some,
        List.filterMap_cons, hp]
      cases hf : rest.find? (fun s => (to_extension s).isNone) with
      | some t => simp
      | none => simp [h]

/-- C4: for valid UTF-8 input, parse_format_flag splits on dots, discards
empty segments, errors with the first unmapped segment together with the
whole input, errors when no segments remain, and otherwise returns the
catalog image of the segments; hence "..tar..gz....." parses identically to
"tar.gz", while "targz", "tar.gz.unknown" and "../tar.gz" all fail. -/
theorem C4_parse_format_flag_characterization :
    (∀ input : List Nat, isValidUtf8 input = true →
      parse_format_flag input =
        match (dotSegments input).find? (fun s => (to_extension s).isNone) with
        | some s => .error (.unsupportedExtension input s)
        | none =>
          if dotSegments input = [] then .error (.emptyList input)
          else .ok ((dotSegments input).filterMap to_extension)) ∧
    parse_format_flag (bytesOf ("..tar..gz.....")) = parse_format_flag (bytesOf ("tar.gz")) ∧
    parse_format_flag (bytesOf ("tar.gz")) = .ok [extTar, extGz] ∧
    parse_format_flag (bytesOf ("targz")) =
      .error (.unsupportedExtension (bytesOf ("targz")) (bytesOf ("targz"))) ∧
    parse_format_flag (bytesOf ("tar.gz.unknown")) =
      .error (.unsupportedExtension (bytesOf ("tar.gz.unknown")) (bytesOf ("unknown"))) ∧
    parse_format_flag (bytesOf ("../tar.gz")) =
      .error (.unsupportedExtension (bytesOf ("../tar.gz")) (bytesOf ("/tar"))) := by
  refine ⟨?_, by decide, by decide, by decide, by decide, by decide⟩
  intro input hv
  simp only [parse_format_flag, if_pos hv, formatFlagMap_characterization]
  cases hf : (dotSegments input).find? (fun s => (to_extension s).isNone) with
  | some s => simp
  | none =>
    simp only []
    cases hsegs : dotSegments input with
    | nil => simp
    | cons s rest =>
      have hs : ¬ ((to_extension s).isNone = true) := by
        have := List.find?_eq_none.mp (hsegs ▸ hf) s (by simp)
        simpa using this
      cases hts : to_extension s with
      | none => simp [hts] at hs
      | some e => simp [List.filterMap_cons, hts]

/-- Witness for C4: the characterization applied to the single-token input
"gz". -/
theorem C4_parse_format_flag_characterization_witness :
    parse_format_flag (bytesOf ("gz")) = .ok [extGz] := by
  have h := C4_parse_format_flag_characterization.1 (bytesOf ("gz")) (by decide)
  simpa using h

theorem formatFlagMap_ne_invalidUtf8 (input : List Nat) (segs : List (List Nat))
    (t : List Nat) : formatFlagMap input segs ≠ .error (.invalidUtf8 t) := by
  induction segs with
  | nil => simp [formatFlagMap]
  | cons s rest ih =>
    cases h : to_extension s with
    | none => simp [formatFlagMap, h]
    | some e =>
      simp only [formatFlagMap, h]
      cases hr : formatFlagMap input rest with
      | ok es => simp
      | error err =>
        rw [hr] at ih
        simpa using ih

/-- C10: an input whose bytes are not valid UTF-8 makes parse_format_flag
fail with the invalid-UTF-8 error carrying the original input, before any
dot-splitting or catalog lookup; valid UTF-8 input never produces that
error. -/
theorem C10_parse_format_flag_utf8 :
    (∀ input : List Nat, isValidUtf8 input = false →
      parse_format_flag input = .error (.invalidUtf8 input)) ∧
    (∀ input t : List Nat, isValidUtf8 input = true →
      parse_format_flag input ≠ .error (.invalidUtf8 t)) := by
  constructor
  · intro input h
    simp [parse_format_flag, h]
  · intro input t hv
    simp only [parse_format_flag, if_pos hv]
    cases hm : formatFlagMap input (dotSegments input) with
    | ok es =>
      by_cases he : es.isEmpty
      · simp [he]
      · simp [he]
    | error err =>
      intro hcontra
      simp only [Except.error.injEq] at hcontra
      exact formatFlagMap_ne_invalidUtf8 input (dotSegments input) t (hcontra ▸ hm)

/-- Witness for C10: the lone byte 0xFF is not valid UTF-8. -/
theorem C10_parse_format_flag_utf8_witness :
    parse_format_flag [0xFF] = .error (.invalidUtf8 [0xFF]) :=
  C10_parse_format_flag_utf8.1 [0xFF] (by decide)

theorem to_extension_eq_none_of_not_mem (t : List Nat)
    (hmem : t ∉ specCatalogTokens) (htbz3 : t ≠ bytesOf ("tbz3")) :
    to_extension t = none := by
  have hn1 : t ≠ bytesOf ("tar") := fun he => hmem (by rw [he]; decide)
  have hn2 : t ≠ bytesOf ("tgz") := fun he => hmem (by rw [he]; decide)
  have hn3a : t ≠ bytesOf ("tbz") := fun he => hmem (by rw [he]; decide)
  have hn3b : t ≠ bytesOf ("tbz2") := fun he => hmem (by rw [he]; decide)
  have hn5 : t ≠ bytesOf ("tlz4") := fun he => hmem (by rw [he]; decide)
  have hn6 : t ≠ bytesOf ("txz") := fun he => hmem (by rw [he]; decide)
  have hn7 : t ≠ bytesOf ("tlzma") := fun he => hmem (by rw [he]; decide)
  have hn8 : t ≠ bytesOf ("tlz") := fun he => hmem (by rw [he]; decide)
  have hn9 : t ≠ bytesOf ("tsz") := fun he => hmem (by rw [he]; decide)
  have hn10 : t ≠ bytesOf ("tzst") := fun he => hmem (by rw [he]; decide)
  have hn11 : t ≠ bytesOf ("zip") := fun he => hmem (by rw [he]; decide)
  have hn12a : t ≠ bytesOf ("bz") := fun he => hmem (by rw [he]; decide)
  have hn12b : t ≠ bytesOf ("bz2") := fun he => hmem (by rw [he]; decide)
  have hn13 : t ≠ bytesOf ("bz3") := fun he => hmem (by rw [he]; decide)
  have hn14 : t ≠ bytesOf ("gz") := fun he => hmem (by rw [he]; decide)
  have hn15 : t ≠ bytesOf ("lz4") := fun he => hmem (by rw [he]; decide)
  have hn16 : t ≠ bytesOf ("xz") := fun he => hmem (by rw [he]; decide)
  have hn17 : t ≠ bytesOf ("lzma") := fun he => hmem (by rw [he]; decide)
  have hn18 : t ≠ bytesOf ("lz") := fun he => hmem (by rw [he]; decide)
  have hn19 : t ≠ bytesOf ("sz") := fun he => hmem (by rw [he]; decide)
  have hn20 : t ≠ bytesOf ("zst") := fun he => hmem (by rw [he]; decide)
  have hn21 : t ≠ bytesOf ("rar") := fun he => hmem (by rw [he]; decide)
  have hn22 : t ≠ bytesOf ("7z") := fun he => hmem (by rw [he]; decide)
  have hn23 : t ≠ bytesOf ("br") := fun he => hmem (by rw [he]; decide)
  unfold to_extension
  rw [if_neg hn1, if_neg hn2, if_neg (not_or.mpr ⟨hn3a, hn3b⟩), if_neg htbz3, if_neg hn5, if_neg hn6, if_neg hn7, if_neg hn8, if_neg hn9, if_neg hn10, if_neg hn11, if_neg (not_or.mpr ⟨hn12a, hn12b⟩), if_neg hn13, if_neg hn14, if_neg hn15, if_neg hn16, if_neg hn17, if_neg hn18, if_neg hn19, if_neg hn20, if_neg hn21, if_neg hn22, if_neg hn23]

theorem to_extension_some_shape (t : List Nat) (e : Extension)
    (h : to_extension t = some e) :
    e.compression_formats ≠ [] ∧ e.display_text = t := by
  unfold to_extension at h
  by_cases h1 : t = bytesOf ("tar")
  · rw [if_pos h1] at h
    injection h with h
    subst h
    exact ⟨List.cons_ne_nil _ _, rfl⟩
  rw [if_neg h1] at h
  by_cases h2 : t = bytesOf ("tgz")
  · rw [if_pos h2] at h
    injection h with h
    subst h
    exact ⟨List.cons_ne_nil _ _, rfl⟩
  rw [if_neg h2] at h
  by_cases h3 : t = bytesOf ("tbz") ∨ t = bytesOf ("tbz2")
  · rw [if_pos h3] at h
    injection h with h
    subst h
    exact ⟨List.cons_ne_nil _ _, rfl⟩
  rw [if_neg h3] at h
  by_cases h4 : t = bytesOf ("tbz3")
  · rw [if_pos h4] at h
    injection h with h
    subst h
    exact ⟨List.cons_ne_nil _ _, rfl⟩
  rw [if_neg h4] at h
  by_cases h5 : t = bytesOf ("tlz4")
  · rw [if_pos h5] at h
    injection h with h
    subst h
    exact ⟨List.cons_ne_nil _ _, rfl⟩
  rw [if_neg h5] at h
  by_cases h6 : t = bytesOf ("txz")
  · rw [if_pos h6] at h
    injection h with h
    subst h
    exact ⟨List.cons_ne_nil _ _, rfl⟩
  rw [if_neg h6] at h
  by_cases h7 : t = bytesOf ("tlzma")
  · rw [if_pos h7] at h
    injection h with h
    subst h
    exact ⟨List.cons_ne_nil _ _, rfl⟩
  rw [if_neg h7] at h
  by_cases h8 : t = bytesOf ("tlz")
  · rw [if_pos h8] at h
    injection h with h
    subst h
    exact ⟨List.cons_ne_nil _ _, rfl⟩
  rw [if_neg h8] at h
  by_cases h9 : t = bytesOf ("tsz")
  · rw [if_pos h9] at h
    injection h with h
    subst h
    exact ⟨List.cons_ne_nil _ _, rfl⟩
  rw [if_neg h9] at h
  by_cases h10 : t = bytesOf ("tzst")
  · rw [if_pos h10] at h
    injection h with h
    subst h
    exact ⟨List.cons_ne_nil _ _, rfl⟩
  rw [if_neg h10] at h
  by_cases h11 : t = bytesOf ("zip")
  · rw [if_pos h11] at h
    injection h with h
    subst h
    exact ⟨List.cons_ne_nil _ _, rfl⟩
  rw [if_neg h11] at h
  by_cases h12 : t = bytesOf ("bz") ∨ t = bytesOf ("bz2")
  · rw [if_pos h12] at h
    injection h with h
    subst h
    exact ⟨List.cons_ne_nil _ _, rfl⟩
  rw [if_neg h12] at h
  by_cases h13 : t = bytesOf ("bz3")
  · rw [if_pos h13] at h
    injection h with h
    subst h
    exact ⟨List.cons_ne_nil _ _, rfl⟩
  rw [if_neg h13] at h
  by_cases h14 : t = bytesOf ("gz")
  · rw [if_pos h14] at h
    injection h with h
    subst h
    exact ⟨List.cons_ne_nil _ _, rfl⟩
  rw [if_neg h14] at h
  by_cases h15 : t = bytesOf ("lz4")
  · rw [if_pos h15] at h
    injection h with h
    subst h
    exact ⟨List.cons_ne_nil _ _, rfl⟩
  rw [if_neg h15] at h
  by_cases h16 : t = bytesOf ("xz")
  · rw [if_pos h16] at h
    injection h with h
    subst h
    exact ⟨List.cons_ne_nil _ _, rfl⟩
  rw [if_neg h16] at h
  by_cases h17 : t = bytesOf ("lzma")
  · rw [if_pos h17] at h
    injection h with h
    subst h
    exact ⟨List.cons_ne_nil _ _, rfl⟩
  rw [if_neg h17] at h
  by_cases h18 : t = bytesOf ("lz")
  · rw [if_pos h18] at h
    injection h with h
    subst h
    exact ⟨List.cons_ne_nil _ _, rfl⟩
  rw [if_neg h18] at h
  by_cases h19 : t = bytesOf ("sz")
  · rw [if_pos h19] at h
    injection h with h
    subst h
    exact ⟨List.cons_ne_nil _ _, rfl⟩
  rw [if_neg h19] at h
  by_cases h20 : t = bytesOf ("zst")
  · rw [if_pos h20] at h
    injection h with h
    subst h
    exact ⟨List.cons_ne_nil _ _, rfl⟩
  rw [if_neg h20] at h
  by_cases h21 : t = bytesOf ("rar")
  · rw [if_pos h21] at h
    injection h with h
    subst h
    exact ⟨List.cons_ne_nil _ _, rfl⟩
  rw [if_neg h21] at h
  by_cases h22 : t = bytesOf ("7z")
  · rw [if_pos h22] at h
    injection h with h
    subst h
    exact ⟨List.cons_ne_nil _ _, rfl⟩
  rw [if_neg h22] at h
  by_cases h23 : t = bytesOf ("br")
  · rw [if_pos h23] at h
    injection h with h
    subst h
    exact ⟨List.cons_ne_nil _ _, rfl⟩
  rw [if_neg h23] at h
  exact Option.noConfusion h

/-- Counterexample for C8: the catalog lookup accepts the token tbz3, which
belongs to neither the spec's extension set, nor its alias set, nor the bare
synonyms it names — so the lookup is not none on every token outside those
sets. -/
theorem C8_counterexample :
    to_extension (bytesOf ("tbz3")) = some ⟨[.Tar, .Bzip3], bytesOf ("tbz3")⟩ ∧
    bytesOf ("tbz3") ∉ specCatalogTokens := by
  constructor
  · decide
  · decide

/-- C8 (amended): the catalog lookup is a pure, case-sensitive function of
the raw token that returns none on every token outside the spec's extension
and alias sets, their named synonyms, and the additional alias tbz3 (which
the lookup also accepts, mapping it to [Tar, Bzip3]); bz and bz2 both map to
[Bzip], tbz and tbz2 both to [Tar, Bzip], tgz to [Tar, Gzip], and every
recognized token yields its non-empty ordered format sequence with the token
itself as display text. -/
theorem C8_to_extension_catalog :
    (∀ t : List Nat, t ∉ specCatalogTokens → t ≠ bytesOf ("tbz3") → to_extension t = none) ∧
    to_extension (bytesOf ("bz")) = some ⟨[.Bzip], bytesOf ("bz")⟩ ∧
    to_extension (bytesOf ("bz2")) = some ⟨[.Bzip], bytesOf ("bz2")⟩ ∧
    to_extension (bytesOf ("tbz")) = some ⟨[.Tar, .Bzip], bytesOf ("tbz")⟩ ∧
    to_extension (bytesOf ("tbz2")) = some ⟨[.Tar, .Bzip], bytesOf ("tbz2")⟩ ∧
    to_extension (bytesOf ("tbz3")) = some ⟨[.Tar, .Bzip3], bytesOf ("tbz3")⟩ ∧
    to_extension (bytesOf ("tgz")) = some ⟨[.Tar, .Gzip], bytesOf ("tgz")⟩ ∧
    (∀ t e, to_extension t = some e →
      e.compression_formats ≠ [] ∧ e.display_text = t) :=
  ⟨to_extension_eq_none_of_not_mem, by decide, by decide, by decide, by decide,
    by decide, by decide, to_extension_some_shape⟩

/-- Witness for C8: the token png is outside every catalog set and is
rejected. -/
theorem C8_to_extension_catalog_witness :
    to_extension (bytesOf ("png")) = none :=
  C8_to_extension_catalog.1 (bytesOf ("png")) (by decide) (by decide)

theorem try_infer_extension_ite (contents : List Nat) :
    try_infer_extension contents =
      (if is_zip (sniffBuffer contents) then some ⟨[.Zip], bytesOf ("zip")⟩
       else if is_tar (sniffBuffer contents) then some ⟨[.Tar], bytesOf ("tar")⟩
       else if is_gz (sniffBuffer contents) then some ⟨[.Gzip], bytesOf ("gz")⟩
       else if is_bz2 (sniffBuffer contents) then some ⟨[.Bzip], bytesOf ("bz2")⟩
       else if is_bz3 (sniffBuffer contents) then some ⟨[.Bzip3], bytesOf ("bz3")⟩
       else if is_lzma (sniffBuffer contents) then some ⟨[.Lzma], bytesOf ("lzma")⟩
       else if is_xz (sniffBuffer contents) then some ⟨[.Xz], bytesOf ("xz")⟩
       else if is_lzip (sniffBuffer contents) then some ⟨[.Lzip], bytesOf ("lzip")⟩
       else if is_lz4 (sniffBuffer contents) then some ⟨[.Lz4], bytesOf ("lz4")⟩
       else if is_sz (sniffBuffer contents) then some ⟨[.Snappy], bytesOf ("sz")⟩
       else if is_zst (sniffBuffer contents) then some ⟨[.Zstd], bytesOf ("zst")⟩
       else if is_rar (sniffBuffer contents) then some ⟨[.Rar], bytesOf ("rar")⟩
       else if is_sevenz (sniffBuffer contents) then some ⟨[.SevenZip], bytesOf ("7z")⟩
       else none) := rfl

set_option maxRecDepth 10000 in
set_option maxHeartbeats 1000000 in
/-- Counterexample for C6: a one-byte file consisting of 0x5D — shorter
than 14 bytes — is sniffed as Lzma, because the sniff buffer is a
zero-padded 270-byte array rather than a buffer of the file's own length,
and the zero padding completes the Lzma pattern. -/
theorem C6_counterexample :
    ([0x5D] : List Nat).length < 14 ∧
    try_infer_extension [0x5D] = some ⟨[.Lzma], bytesOf ("lzma")⟩ := by
  constructor
  · decide
  · decide

set_option maxHeartbeats 1000000 in
/-- C6 (amended): try_infer_extension reads up to 270 bytes into a
zero-initialized buffer that always keeps length 270 (a shorter file leaves
the tail zero), and returns the Lzma extension exactly when the padded
buffer satisfies is_lzma — byte 0 equal to 0x5D, byte 12 in {0x00, 0xFF},
byte 13 equal to 0x00, the length bound holding trivially — and none of the
earlier signatures in the fixed priority order (Zip, Tar, Gzip, Bzip,
Bzip3) matched; in particular a file shorter than 14 bytes can be sniffed
as Lzma through the padding. -/
theorem C6_lzma_sniff :
    ∀ contents : List Nat,
      (sniffBuffer contents).length = 270 ∧
      (try_infer_extension contents = some ⟨[.Lzma], bytesOf ("lzma")⟩ ↔
        (is_lzma (sniffBuffer contents) = true ∧ is_zip (sniffBuffer contents) = false ∧
         is_tar (sniffBuffer contents) = false ∧ is_gz (sniffBuffer contents) = false ∧
         is_bz2 (sniffBuffer contents) = false ∧ is_bz3 (sniffBuffer contents) = false)) := by
  intro contents
  constructor
  · simp only [sniffBuffer, List.length_append, List.length_take, List.length_replicate]
    omega
  · rw [try_infer_extension_ite]
    by_cases h1 : is_zip (sniffBuffer contents) = true
    · rw [if_pos h1]
      exact iff_of_false (by simp)
        (fun hr => by rw [hr.2.1] at h1; exact Bool.noConfusion h1)
    rw [if_neg h1]
    by_cases h2 : is_tar (sniffBuffer contents) = true
    · rw [if_pos h2]
      exact iff_of_false (by simp)
        (fun hr => by rw [hr.2.2.1] at h2; exact Bool.noConfusion h2)
    rw [if_neg h2]
    by_cases h3 : is_gz (sniffBuffer contents) = true
    · rw [if_pos h3]
      exact iff_of_false (by simp)
        (fun hr => by rw [hr.2.2.2.1] at h3; exact Bool.noConfusion h3)
    rw [if_neg h3]
    by_cases h4 : is_bz2 (sniffBuffer contents) = true
    · rw [if_pos h4]
      exact iff_of_false (by simp)
        (fun hr => by rw [hr.2.2.2.2.1] at h4; exact Bool.noConfusion h4)
    rw [if_neg h4]
    by_cases h5 : is_bz3 (sniffBuffer contents) = true
    · rw [if_pos h5]
      exact iff_of_false (by simp)
        (fun hr => by rw [hr.2.2.2.2.2] at h5; exact Bool.noConfusion h5)
    rw [if_neg h5]
    by_cases h6 : is_lzma (sniffBuffer contents) = true
    · rw [if_pos h6]
      exact iff_of_true rfl
        ⟨h6, by simpa using h1, by simpa using h2, by simpa using h3,
          by simpa using h4, by simpa using h5⟩
    rw [if_neg h6]
    by_cases h7 : is_xz (sniffBuffer contents) = true
    · rw [if_pos h7]
      exact iff_of_false (by simp) (fun hr => h6 hr.1)
    rw [if_neg h7]
    by_cases h8 : is_lzip (sniffBuffer contents) = true
    · rw [if_pos h8]
      exact iff_of_false (by simp) (fun hr => h6 hr.1)
    rw [if_neg h8]
    by_cases h9 : is_lz4 (sniffBuffer contents) = true
    · rw [if_pos h9]
      exact iff_of_false (by simp) (fun hr => h6 hr.1)
    rw [if_neg h9]
    by_cases h10 : is_sz (sniffBuffer contents) = true
    · rw [if_pos h10]
      exact iff_of_false (by simp) (fun hr => h6 hr.1)
    rw [if_neg h10]
    by_cases h11 : is_zst (sniffBuffer contents) = true
    · rw [if_pos h11]
      exact iff_of_false (by simp) (fun hr => h6 hr.1)
    rw [if_neg h11]
    by_cases h12 : is_rar (sniffBuffer contents) = true
    · rw [if_pos h12]
      exact iff_of_false (by simp) (fun hr => h6 hr.1)
    rw [if_neg h12]
    by_cases h13 : is_sevenz (sniffBuffer contents) = true
    · rw [if_pos h13]
      exact iff_of_false (by simp) (fun hr => h6 hr.1)
    rw [if_neg h13]
    exact iff_of_false (by simp) (fun hr => h6 hr.1)
/-- C7 (code evaluation): the suggestion builder checks segments against
SUPPORTED_EXTENSIONS and SUPPORTED_ALIASES, which in this source omit
"bz3"; hence the failing input file.bz3 with ".tar" yields none rather than
the spec's "file.tar.bz3", while the in-set examples behave as specified. -/
theorem C7_suggestion_bz3 :
    build_archive_file_suggestion (charsOf ("file.bz3")) (charsOf (".tar")) = none ∧
    build_archive_file_suggestion (charsOf ("linux.pkg.zst")) (charsOf (".tar")) =
      some (charsOf ("linux.pkg.tar.zst")) ∧
    build_archive_file_suggestion (charsOf ("linux.png")) (charsOf (".tar")) = none := by
  refine ⟨by decide, by decide, by decide⟩

theorem isDigit_ne_dot {c : Char} (h : c.isDigit = true) : c ≠ '.' := by
  intro he
  rw [he] at h
  exact Bool.noConfusion h

theorem isDigit_ne_underscore {c : Char} (h : c.isDigit = true) : c ≠ '_' := by
  intro he
  rw [he] at h
  exact Bool.noConfusion h

theorem rsplitOnceChar_eq_none {sep : Char} {l : List Char} (h : sep ∉ l) :
    rsplitOnceChar sep l = none := by
  induction l with
  | nil => rfl
  | cons c rest ih =>
    have hc : c ≠ sep := fun he => h (he ▸ List.mem_cons_self c rest)
    have hr : sep ∉ rest := fun hm => h (List.mem_cons_of_mem c hm)
    simp [rsplitOnceChar, ih hr, if_neg (fun he : c = sep => hc he)]

theorem rsplitOnceChar_append {sep : Char} (l : List Char) {r : List Char} (h : sep ∉ r) :
    rsplitOnceChar sep (l ++ sep :: r) = some (l, r) := by
  induction l with
  | nil => simp [rsplitOnceChar, rsplitOnceChar_eq_none h]
  | cons a l ih => simp [rsplitOnceChar, ih]

theorem pathFileStem_no_dot {name : List Char} (h : '.' ∉ name) :
    pathFileStem name = name := by
  simp [pathFileStem, rsplitOnceChar_eq_none h]

theorem pathExtension_no_dot {name : List Char} (h : '.' ∉ name) :
    pathExtension name = none := by
  simp [pathExtension, rsplitOnceChar_eq_none h]

theorem pathFileStem_append_ext {s e : List Char} (he : '.' ∉ e)
    (hne : s ≠ []) : pathFileStem (s ++ '.' :: e) = s := by
  simp [pathFileStem, rsplitOnceChar_append s he, hne]

theorem pathExtension_append_ext {s e : List Char} (he : '.' ∉ e)
    (hne : s ≠ []) : pathExtension (s ++ '.' :: e) = some e := by
  simp [pathExtension, rsplitOnceChar_append s he, hne]

theorem pathSetExtension_no_dot {name : List Char} (e : List Char) (h : '.' ∉ name) :
    pathSetExtension name e = name ++ '.' :: e := by
  simp [pathSetExtension, pathFileStem_no_dot h]

theorem digitChar_isDigit {m : Nat} (h : m < 10) : (Nat.digitChar m).isDigit = true := by
  interval_cases m <;> decide

theorem toDigitsCore_digits (fuel : Nat) : ∀ (n : Nat) (acc : List Char),
    (∀ c ∈ acc, c.isDigit = true) → ∀ c ∈ Nat.toDigitsCore 10 fuel n acc, c.isDigit = true := by
  induction fuel with
  | zero => intro n acc hacc; simpa [Nat.toDigitsCore] using hacc
  | succ f ih =>
    intro n acc hacc
    have hd : (Nat.digitChar (n % 10)).isDigit = true :=
      digitChar_isDigit (Nat.mod_lt n (by norm_num))
    have hacc' : ∀ c ∈ Nat.digitChar (n % 10) :: acc, c.isDigit = true := by
      intro c hc
      rcases List.mem_cons.mp hc with h | h
      · exact h ▸ hd
      · exact hacc c h
    simp only [Nat.toDigitsCore]
    by_cases hz : n / 10 = 0
    · simpa [hz] using hacc'
    · simpa [hz] using ih (n / 10) (Nat.digitChar (n % 10) :: acc) hacc'

theorem repr_digits (n : Nat) : ∀ c ∈ charsOf (Nat.repr n), c.isDigit = true := by
  have : charsOf (Nat.repr n) = Nat.toDigitsCore 10 (n + 1) n [] := rfl
  rw [this]
  exact toDigitsCore_digits (n + 1) n [] (by simp)

theorem repr_no_dot (n : Nat) : '.' ∉ charsOf (Nat.repr n) := fun h =>
  isDigit_ne_dot (repr_digits n '.' h) rfl

theorem repr_no_underscore (n : Nat) : '_' ∉ charsOf (Nat.repr n) := fun h =>
  isDigit_ne_underscore (repr_digits n '_' h) rfl

theorem newFilenameOf_digits {base ds : List Char}
    (hdig : ∀ c ∈ ds, c.isDigit = true) :
    newFilenameOf (base ++ '_' :: ds) =
      base ++ '_' :: charsOf (Nat.repr (((parseU32 ds).getD 0 + 1) % 4294967296)) := by
  have hu : '_' ∉ ds := fun h => isDigit_ne_underscore (hdig '_' h) rfl
  simp [newFilenameOf, rsplitOnceChar_append base hu, List.all_eq_true.mpr hdig]

theorem newFilenameOf_no_underscore {s : List Char} (h : '_' ∉ s) :
    newFilenameOf s = s ++ charsOf ("_1") := by
  simp [newFilenameOf, rsplitOnceChar_eq_none h]

theorem no_dot_append_underscore {base ds : List Char} (hb : '.' ∉ base)
    (hdig : ∀ c ∈ ds, c.isDigit = true) : '.' ∉ base ++ '_' :: ds := by
  intro h
  rcases List.mem_append.mp h with h | h
  · exact hb h
  · rcases List.mem_cons.mp h with h | h
    · exact absurd h (by decide)
    · exact isDigit_ne_dot (hdig '.' h) rfl

theorem rename_step_no_ext {par fn : List Char} (h : '.' ∉ fn) :
    rename_or_increment_filename ⟨par, fn⟩ = ⟨par, newFilenameOf fn⟩ := by
  simp [rename_or_increment_filename, pathExtension_no_dot h, pathFileStem_no_dot h]

theorem rename_step_with_ext {par s e : List Char} (he : '.' ∉ e)
    (hsne : s ≠ []) (hene : e ≠ []) :
    rename_or_increment_filename ⟨par, s ++ '.' :: e⟩ =
      ⟨par, pathSetExtension (newFilenameOf s) e⟩ := by
  simp [rename_or_increment_filename, pathExtension_append_ext he hsne,
    pathFileStem_append_ext he hsne, hene]

/-- Counterexample for C9: reattachment goes through set_extension, which
replaces the part after the last dot of the new stem instead of appending —
a.b.txt becomes a.txt, not the claim's a.b_1.txt — and the successor of the
numeric suffix is computed in u32, so file_4294967295.txt wraps to
file_0.txt rather than the claim's file_4294967296.txt. -/
theorem C9_counterexample :
    rename_or_increment_filename ⟨[], charsOf ("a.b.txt")⟩ = ⟨[], charsOf ("a.txt")⟩ ∧
    rename_or_increment_filename ⟨[], charsOf ("file_4294967295.txt")⟩ =
      ⟨[], charsOf ("file_0.txt")⟩ := by
  constructor
  · decide
  · decide

/-- C9 (amended): the single increment step keeps the parent directory; a
stem ending in an underscore plus digits has the digits replaced by their
value plus one reduced modulo 2 ^ 32 (an unparsable digit string counts as
0), otherwise "_1" is appended to the stem; a present extension is
reattached via set_extension, which appends it when the new stem has no dot
(file.txt to file_1.txt, file_1.txt to file_2.txt) but replaces the new
stem's own final dot-suffix otherwise (a.b.txt to a.txt). -/
theorem C9_rename_or_increment :
    (∀ p : FsPath, (rename_or_increment_filename p).parent = p.parent) ∧
    (∀ par base ds : List Char, (∀ c ∈ ds, c.isDigit = true) → '.' ∉ base →
      rename_or_increment_filename ⟨par, base ++ '_' :: ds⟩ =
        ⟨par, base ++ '_' :: charsOf (Nat.repr (((parseU32 ds).getD 0 + 1) % 4294967296))⟩) ∧
    (∀ par base ds e : List Char, (∀ c ∈ ds, c.isDigit = true) → '.' ∉ base → '.' ∉ e →
      e ≠ [] →
      rename_or_increment_filename ⟨par, (base ++ '_' :: ds) ++ '.' :: e⟩ =
        ⟨par, (base ++ '_' :: charsOf (Nat.repr (((parseU32 ds).getD 0 + 1) % 4294967296)))
          ++ '.' :: e⟩) ∧
    (∀ par s : List Char, '.' ∉ s → '_' ∉ s →
      rename_or_increment_filename ⟨par, s⟩ = ⟨par, s ++ charsOf ("_1")⟩) ∧
    (∀ par s e : List Char, '.' ∉ s → '_' ∉ s → '.' ∉ e → s ≠ [] → e ≠ [] →
      rename_or_increment_filename ⟨par, s ++ '.' :: e⟩ =
        ⟨par, (s ++ charsOf ("_1")) ++ '.' :: e⟩) ∧
    rename_or_increment_filename ⟨[], charsOf ("file.txt")⟩ = ⟨[], charsOf ("file_1.txt")⟩ ∧
    rename_or_increment_filename ⟨[], charsOf ("file_1.txt")⟩ = ⟨[], charsOf ("file_2.txt")⟩ ∧
    rename_or_increment_filename ⟨[], charsOf ("a.b.txt")⟩ = ⟨[], charsOf ("a.txt")⟩ := by
  refine ⟨?_, ?_, ?_, ?_, ?_, by decide, by decide, by decide⟩
  · intro p
    unfold rename_or_increment_filename
    split <;> rfl
  · intro par base ds hdig hb
    have hfn : '.' ∉ base ++ '_' :: ds := no_dot_append_underscore hb hdig
    rw [rename_step_no_ext hfn, newFilenameOf_digits hdig]
  · intro par base ds e hdig hb he hene
    have hsne : base ++ '_' :: ds ≠ [] := by simp
    rw [rename_step_with_ext he hsne hene, newFilenameOf_digits hdig,
      pathSetExtension_no_dot _ (no_dot_append_underscore hb (repr_digits _))]
  · intro par s h1 h2
    rw [rename_step_no_ext h1, newFilenameOf_no_underscore h2]
  · intro par s e h1 h2 h3 h4 h5
    have hnd : '.' ∉ s ++ charsOf ("_1") := by
      intro hm
      rcases List.mem_append.mp hm with hm | hm
      · exact h1 hm
      · revert hm
        decide
    rw [rename_step_with_ext h3 h4 h5, newFilenameOf_no_underscore h2,
      pathSetExtension_no_dot _ hnd]

/-- Witness for C9: the append branch applied to a dotless, underscoreless
name. -/
theorem C9_rename_or_increment_witness :
    rename_or_increment_filename ⟨[], charsOf ("data")⟩ = ⟨[], charsOf ("data_1")⟩ := by
  have h := C9_rename_or_increment.2.2.2.1 [] (charsOf ("data")) (by decide) (by decide)
  exact h.trans (by decide)

theorem renameIter_succ_shift (p : FsPath) : ∀ k : Nat,
    renameIter p (k + 1) = renameIter (rename_or_increment_filename p) k := by
  intro k
  induction k with
  | zero => rfl
  | succ k ih =>
    show rename_or_increment_filename (renameIter p (k + 1)) = _
    rw [ih]
    rfl

theorem renameLoop_some {fsExists : FsPath → Bool} : ∀ (fuel : Nat) (q0 q : FsPath),
    renameLoop fsExists fuel q0 = some q →
    fsExists q = false ∧ ∃ j, q = renameIter q0 j := by
  intro fuel
  induction fuel with
  | zero => intro q0 q h; exact Option.noConfusion h
  | succ f ih =>
    intro q0 q h
    simp only [renameLoop] at h
    cases hE : fsExists q0 with
    | true =>
      rw [hE, if_pos rfl] at h
      obtain ⟨hq, j, hj⟩ := ih (rename_or_increment_filename q0) q h
      exact ⟨hq, j + 1, by rw [renameIter_succ_shift]; exact hj⟩
    | false =>
      rw [hE] at h
      simp only [Bool.false_eq_true, if_false, Option.some.injEq] at h
      subst h
      exact ⟨hE, 0, rfl⟩

theorem renameLoop_terminates {fsExists : FsPath → Bool} : ∀ (fuel : Nat) (q0 : FsPath),
    (∃ j, j < fuel ∧ fsExists (renameIter q0 j) = false) →
    ∃ q, renameLoop fsExists fuel q0 = some q := by
  intro fuel
  induction fuel with
  | zero => intro q0 h; obtain ⟨j, hj, _⟩ := h; omega
  | succ f ih =>
    intro q0 h
    obtain ⟨j, hj, hjf⟩ := h
    simp only [renameLoop]
    cases hE : fsExists q0 with
    | false => exact ⟨q0, by simp⟩
    | true =>
      have hjne : j ≠ 0 := by
        intro h0
        rw [h0] at hjf
        rw [show renameIter q0 0 = q0 from rfl] at hjf
        rw [hE] at hjf
        exact Bool.noConfusion hjf
      obtain ⟨j', rfl⟩ := Nat.exists_eq_succ_of_ne_zero hjne
      have : fsExists (renameIter (rename_or_increment_filename q0) j') = false := by
        rw [← renameIter_succ_shift]
        exact hjf
      obtain ⟨q, hq⟩ := ih (rename_or_increment_filename q0) ⟨j', by omega, this⟩
      exact ⟨q, by simp [hq]⟩

theorem rename_for_available_spec {fsExists : FsPath → Bool} {fuel : Nat} {p q : FsPath}
    (h : rename_for_available_filename fsExists fuel p = some q) :
    fsExists q = false ∧ ∃ k, 1 ≤ k ∧ q = renameIter p k := by
  obtain ⟨hq, j, hj⟩ := renameLoop_some fuel (rename_or_increment_filename p) q h
  refine ⟨hq, j + 1, by omega, ?_⟩
  rw [renameIter_succ_shift]
  exact hj

/-- C5: rename_for_available_filename applies the increment step at least
once and repeats it while the produced path exists, so a returned path is a
k-th iterate (k at least 1) that does not exist at return time; when only
finitely many of the incrementally produced candidates pre-exist on the
filesystem, sufficient fuel exists for the loop to finish; and for file.txt
in a directory holding file_1.txt through file_5.txt it returns
file_6.txt. -/
theorem C5_rename_for_available_filename :
    (∀ (fsExists : FsPath → Bool) (fuel : Nat) (p q : FsPath),
      rename_for_available_filename fsExists fuel p = some q →
      fsExists q = false ∧ ∃ k, 1 ≤ k ∧ q = renameIter p k) ∧
    (∀ (fsExists : FsPath → Bool) (p : FsPath),
      {k : Nat | fsExists (renameIter p k) = true}.Finite →
      ∃ fuel q, rename_for_available_filename fsExists fuel p = some q ∧
        fsExists q = false) ∧
    rename_for_available_filename exampleDir 10 ⟨[], charsOf ("file.txt")⟩ =
      some ⟨[], charsOf ("file_6.txt")⟩ := by
  refine ⟨fun fsExists fuel p q h => rename_for_available_spec h, ?_, by decide⟩
  intro fsExists p hfin
  obtain ⟨N, hN⟩ := hfin.bddAbove
  have hfree : fsExists (renameIter p (N + 1)) = false := by
    cases hE : fsExists (renameIter p (N + 1)) with
    | false => rfl
    | true =>
      have : N + 1 ≤ N := hN (Set.mem_setOf_eq ▸ hE)
      omega
  have hterm : ∃ q, renameLoop fsExists (N + 1) (rename_or_increment_filename p) = some q := by
    refine renameLoop_terminates (N + 1) _ ⟨N, by omega, ?_⟩
    rw [← renameIter_succ_shift]
    exact hfree
  obtain ⟨q, hq⟩ := hterm
  exact ⟨N + 1, q, hq, (rename_for_available_spec hq).1⟩

/-- Witness for C5: the first conjunct applied to the example directory run
shows the returned file_6.txt does not exist there. -/
theorem C5_rename_for_available_filename_witness :
    exampleDir ⟨[], charsOf ("file_6.txt")⟩ = false :=
  (C5_rename_for_available_filename.1 exampleDir 10 ⟨[], charsOf ("file.txt")⟩
    ⟨[], charsOf ("file_6.txt")⟩ (by decide)).1

/-- C3: resolve_path_conflict returns the path unchanged — independently of
the prompt collaborator and with no deletion request — when the path does
not exist; when it exists, Cancel yields Ok none (an empty result, not an
error), Overwrite issues the deletion request for the existing path (the
source removes the file or recursively removes the directory) and returns
the same path, Rename returns a fresh path that does not exist with no
deletion, and Merge returns the original path unchanged with no deletion. -/
theorem C3_resolve_path_conflict :
    (∀ (Q A : Type) (fsExists : FsPath → Bool)
      (uw : FsPath → Q → A → Except Unit FileConflitOperation) (fuel : Nat)
      (path : FsPath) (pol : Q) (act : A), fsExists path = false →
      resolve_path_conflict fsExists uw fuel path pol act = some (.ok (some path, none))) ∧
    (∀ (Q A : Type) (fsExists : FsPath → Bool)
      (uw : FsPath → Q → A → Except Unit FileConflitOperation) (fuel : Nat)
      (path : FsPath) (pol : Q) (act : A), fsExists path = true →
      uw path pol act = .ok .Cancel →
      resolve_path_conflict fsExists uw fuel path pol act = some (.ok (none, none))) ∧
    (∀ (Q A : Type) (fsExists : FsPath → Bool)
      (uw : FsPath → Q → A → Except Unit FileConflitOperation) (fuel : Nat)
      (path : FsPath) (pol : Q) (act : A), fsExists path = true →
      uw path pol act = .ok .Overwrite →
      resolve_path_conflict fsExists uw fuel path pol act =
        some (.ok (some path, some path))) ∧
    (∀ (Q A : Type) (fsExists : FsPath → Bool)
      (uw : FsPath → Q → A → Except Unit FileConflitOperation) (fuel : Nat)
      (path : FsPath) (pol : Q) (act : A) (q : FsPath), fsExists path = true →
      uw path pol act = .ok .Rename →
      rename_for_available_filename fsExists fuel path = some q →
      resolve_path_conflict fsExists uw fuel path pol act = some (.ok (some q, none)) ∧
        fsExists q = false) ∧
    (∀ (Q A : Type) (fsExists : FsPath → Bool)
      (uw : FsPath → Q → A → Except Unit FileConflitOperation) (fuel : Nat)
      (path : FsPath) (pol : Q) (act : A), fsExists path = true →
      uw path pol act = .ok .Merge →
      resolve_path_conflict fsExists uw fuel path pol act = some (.ok (some path, none))) := by
  refine ⟨?_, ?_, ?_, ?_, ?_⟩
  · intro Q A fsExists uw fuel path pol act h
    simp [resolve_path_conflict, h]
  · intro Q A fsExists uw fuel path pol act h hu
    simp [resolve_path_conflict, h, hu]
  · intro Q A fsExists uw fuel path pol act h hu
    simp [resolve_path_conflict, h, hu]
  · intro Q A fsExists uw fuel path pol act q h hu hr
    exact ⟨by simp [resolve_path_conflict, h, hu, hr], (rename_for_available_spec hr).1⟩
  · intro Q A fsExists uw fuel path pol act h hu
    simp [resolve_path_conflict, h, hu]

/-- Witness for C3: an existing path with a collaborator that always answers
Cancel resolves to the empty result. -/
theorem C3_resolve_path_conflict_witness :
    resolve_path_conflict exampleDir (fun _ _ _ => Except.ok FileConflitOperation.Cancel) 0
      ⟨[], charsOf ("file_1.txt")⟩ () () = some (.ok (none, none)) :=
  C3_resolve_path_conflict.2.1 Unit Unit exampleDir
    (fun _ _ _ => Except.ok FileConflitOperation.Cancel) 0
    ⟨[], charsOf ("file_1.txt")⟩ () () (by decide) rfl

end Ouch

